import Mathlib

/-!
Verification development for the MidasProject/engine repository.

The development shallowly embeds the two subsystems the specification
describes:

* the incremental data updater (`data/update.py`): interval-bucket
  arithmetic, the 1m→coarser aggregator, and the forward fetch loop;
* the backtesting engine (`engine/`): order, position, trade, account and
  fee models, the order/position/account/analysis services, and the
  candle-by-candle event loop of `BacktestEngine.run_backtest`.

Python `Decimal`/`float` values are modelled as `Rat`; epoch-millisecond
timestamps and Python `int` as `Int`.  Python's floor division `//`
coincides with Lean's `Int` division (`Int.ediv`) for the positive
divisors used here.  Wall-clock reads (`datetime.now()`) are modelled by
an explicit clock `Nat → Int` consumed call-by-call, so that claims about
wall-clock dependence become statements about that parameter.
-/

namespace Midas

/-! ## Kline rows (the 12-element arrays returned by the kline endpoint) -/

/-- One kline row: the 12 positional fields of a Binance kline array, in
declaration order, as consumed by `DatabaseUpdater._aggregate_group`. -/
structure KlineRow where
  open_time : Int
  open_price : Rat
  high_price : Rat
  low_price : Rat
  close_price : Rat
  volume : Rat
  close_time : Int
  quote_asset_volume : Rat
  number_of_trades : Int
  taker_buy_base : Rat
  taker_buy_quote : Rat
  ignore_field : Rat
deriving DecidableEq, Repr, Inhabited

/-- `DatabaseUpdater._get_interval_start`: floor `timestamp_ms` to the
start of its `interval_minutes`-wide bucket (seconds resolution, then
back to milliseconds). -/
def get_interval_start (timestamp_ms : Int) (interval_minutes : Int) : Int :=
  let timestamp_sec := timestamp_ms / 1000
  let interval_sec := interval_minutes * 60
  let interval_start_sec := (timestamp_sec / interval_sec) * interval_sec
  interval_start_sec * 1000

/-- The supported intervals (`SUPPORTED_INTERVALS` in `db_initialize.py`). -/
inductive Interval
  | i1m | i3m | i5m | i15m | i30m | i1h | i2h | i4h | i6h | i8h | i12h
  | i1D | i3D | i1W | i1M
deriving DecidableEq, Repr

/-- `INTERVAL_MINUTES` from `db_initialize.py`. -/
def interval_minutes : Interval → Int
  | .i1m => 1 | .i3m => 3 | .i5m => 5 | .i15m => 15 | .i30m => 30
  | .i1h => 60 | .i2h => 120 | .i4h => 240 | .i6h => 360 | .i8h => 480
  | .i12h => 720 | .i1D => 1440 | .i3D => 4320 | .i1W => 10080
  | .i1M => 43200

/-- The group sort in `_aggregate_group` (`group.sort(key=lambda x: int(x[0]))`):
stable sort ascending by `open_time`. -/
def sort_rows (group : List KlineRow) : List KlineRow :=
  List.insertionSort (fun a b => a.open_time ≤ b.open_time) group

/-- `DatabaseUpdater._aggregate_group`: reduce one bucket's rows into a
single row.  The group is sorted ascending by `open_time`; `open_time`,
`open` come from the first row, `close_time`, `close` from the last,
`high`/`low` are extrema, and the volume-like fields are sums. -/
def aggregate_group (group : List KlineRow) : KlineRow :=
  let sorted := sort_rows group
  let first_candle := sorted.headI
  let last_candle := sorted.getLastI
  { open_time := first_candle.open_time
    open_price := first_candle.open_price
    high_price := sorted.tail.foldl (fun m c => max m c.high_price) first_candle.high_price
    low_price := sorted.tail.foldl (fun m c => min m c.low_price) first_candle.low_price
    close_price := last_candle.close_price
    volume := sorted.foldl (fun a c => a + c.volume) 0
    close_time := last_candle.close_time
    quote_asset_volume := sorted.foldl (fun a c => a + c.quote_asset_volume) 0
    number_of_trades := sorted.foldl (fun a c => a + c.number_of_trades) 0
    taker_buy_base := sorted.foldl (fun a c => a + c.taker_buy_base) 0
    taker_buy_quote := sorted.foldl (fun a c => a + c.taker_buy_quote) 0
    ignore_field := sorted.foldl (fun a c => a + c.ignore_field) 0 }

/-- The grouping loop inside `aggregate_to_interval`: the current group is
`cur_head :: cur_tail` (in arrival order) with bucket `cur_bucket`; a row
whose bucket differs flushes the group and starts a new one, and the last
group is flushed at the end of the input. -/
def agg_loop (w : Int) : KlineRow → List KlineRow → Int → List KlineRow → List KlineRow
  | cur_head, cur_tail, _, [] => [aggregate_group (cur_head :: cur_tail)]
  | cur_head, cur_tail, cur_bucket, r :: rest =>
    if get_interval_start r.open_time w = cur_bucket then
      agg_loop w cur_head (cur_tail ++ [r]) cur_bucket rest
    else
      aggregate_group (cur_head :: cur_tail) ::
        agg_loop w r [] (get_interval_start r.open_time w) rest

/-- `DatabaseUpdater.aggregate_to_interval`: identity for the `1m` target,
otherwise group consecutive rows by `_get_interval_start` and reduce each
group with `_aggregate_group`. -/
def aggregate_to_interval (target_interval : Interval) (data_1m : List KlineRow) :
    List KlineRow :=
  if target_interval = .i1m then data_1m
  else
    let w := interval_minutes target_interval
    match data_1m with
    | [] => []
    | r :: rest => agg_loop w r [] (get_interval_start r.open_time w) rest

/-- The rows at which `aggregate_to_interval`'s grouping loop starts a new
group (the first row, plus every row whose bucket differs from the current
group's bucket): auxiliary walker carrying the current group's bucket. -/
def run_heads_aux (w : Int) : Int → List KlineRow → List KlineRow
  | _, [] => []
  | b, r :: rest =>
    if get_interval_start r.open_time w = b then run_heads_aux w b rest
    else r :: run_heads_aux w (get_interval_start r.open_time w) rest

/-- The group-head rows of an input list under bucket width `w`. -/
def run_heads (w : Int) : List KlineRow → List KlineRow
  | [] => []
  | r :: rest => r :: run_heads_aux w (get_interval_start r.open_time w) rest

/-! ## The incremental updater's forward fetch loop -/

/-- `API_LIMIT` from `config/settings.py`. -/
def API_LIMIT : Int := 499

/-- Result of the fetch loop: the accumulated rows and the final cursor
(`start_time` variable of `DatabaseUpdater.fetch_new_data`). -/
structure FetchResult where
  all_data : List KlineRow
  cursor : Int
deriving DecidableEq, Repr

/-- `DatabaseUpdater.fetch_new_data`, with the batch request abstracted as
`fetch_batch : end_time ↦ rows` and an explicit fuel bound on the number
of iterations (the Python `while` loop has no such bound).  Each
iteration: request the window ending at
`min(start_time + API_LIMIT·width_ms, end_time)`; stop on an empty batch;
keep only rows with `open_time > start_time`; stop if nothing is kept;
otherwise accumulate and set `start_time = data[0].open_time + 1`. -/
def fetch_new_data (fetch_batch : Int → List KlineRow) (end_time width_ms : Int) :
    Nat → Int → List KlineRow → FetchResult
  | 0, start_time, acc => ⟨acc, start_time⟩
  | fuel + 1, start_time, acc =>
    if start_time < end_time then
      let batch_end_time := min (start_time + API_LIMIT * width_ms) end_time
      match fetch_batch batch_end_time with
      | [] => ⟨acc, start_time⟩
      | first :: ds =>
        let new_data := (first :: ds).filter (fun row => start_time < row.open_time)
        if new_data.isEmpty then ⟨acc, start_time⟩
        else
          fetch_new_data fetch_batch end_time width_ms fuel
            (first.open_time + 1) (acc ++ new_data)
    else ⟨acc, start_time⟩

/-! ## Engine enumerations (`engine/enums/trading.py`) -/

/-- `OrderSide`. -/
inductive OrderSide | buy | sell
deriving DecidableEq, Repr

/-- `OrderType`. -/
inductive OrderType | market | limit | stop_market | stop_limit | take_profit
deriving DecidableEq, Repr

/-- `OrderStatus`. -/
inductive OrderStatus | new | filled | canceled | rejected | expired
deriving DecidableEq, Repr

/-- `PositionSide`. -/
inductive PositionSide | long | short
deriving DecidableEq, Repr

/-- `PositionStatus` (`OPEN`/`CLOSED`/`LIQUIDATED`). -/
inductive PositionStatus | opn | closed | liquidated
deriving DecidableEq, Repr

/-- `TradeStatus` (`OPEN`/`CLOSED`/`CANCELLED`). -/
inductive TradeStatus | opn | closed | cancelled
deriving DecidableEq, Repr

/-- `FeeType`. -/
inductive FeeType | maker | taker | funding | commission
deriving DecidableEq, Repr

/-! ## Order models (`engine/models/orders.py`)

The Python source is a class hierarchy (`OrderData` with subclasses
`LimitOrderData`, `StopMarketOrderData`, `StopLimitOrderData`,
`TakeProfitOrderData`); it is embedded as a tagged variant carrying the
per-kind price fields. -/

/-- The subclass tag plus its typed price payload. -/
inductive OrderVariant
  | market
  | limit (price : Rat)
  | stop_market (stop_price : Rat)
  | stop_limit (stop_price limit_price : Rat)
  | take_profit (target_price : Rat)
deriving DecidableEq, Repr

/-- The shared `OrderData` header plus the variant payload. -/
structure OrderData where
  symbol : String
  side : OrderSide
  quantity : Rat
  order_id : String
  variant : OrderVariant
  status : OrderStatus := .new
  created_at : Option Int := none
  filled_at : Option Int := none
deriving DecidableEq, Repr

/-- The `order_type` field carried by each subclass. -/
def OrderData.order_type (o : OrderData) : OrderType :=
  match o.variant with
  | .market => .market
  | .limit _ => .limit
  | .stop_market _ => .stop_market
  | .stop_limit _ _ => .stop_limit
  | .take_profit _ => .take_profit

/-! ## Account models and balance service
(`engine/models/account.py`, `engine/services/account_service.py`) -/

/-- `Balance`: per-asset free and locked amounts. -/
structure Balance where
  asset : String
  free : Rat
  locked : Rat
deriving DecidableEq, Repr

/-- `Balance.total` property. -/
def Balance.total (b : Balance) : Rat := b.free + b.locked

/-- `AccountData`.  `balances` is the `asset → Balance` mapping as an
association list keyed by `asset`. -/
structure AccountData where
  account_id : String
  balances : List Balance := []
  total_fees_paid : Rat := 0
  total_pnl : Rat := 0
  created_at : Int := 0
deriving DecidableEq, Repr

/-- Asset lookup in the balances mapping (first entry with the asset). -/
def find_balance (balances : List Balance) (asset : String) : Option Balance :=
  balances.find? (fun b => b.asset = asset)

/-- `BalanceService.add_balance`: create the entry or add to `free`. -/
def add_balance (account : AccountData) (asset : String) (amount : Rat) : AccountData :=
  match find_balance account.balances asset with
  | none => { account with balances := account.balances ++ [⟨asset, amount, 0⟩] }
  | some _ =>
    { account with
      balances := account.balances.map (fun b =>
        if b.asset = asset then { b with free := b.free + amount } else b) }

/-- `BalanceService.get_total_balance`: `free + locked`, `0` if absent. -/
def get_total_balance (account : AccountData) (asset : String) : Rat :=
  match find_balance account.balances asset with
  | none => 0
  | some b => b.total

/-! ## Position models and PnL service
(`engine/models/positions.py`, `engine/services/position_service.py`) -/

/-- `PositionData`.  `position_id` is the value of the sequential counter
behind `IDGenerator.generate_position_id` (`position_{n}`). -/
structure PositionData where
  symbol : String
  side : PositionSide
  size : Rat
  entry_price : Rat
  current_price : Rat
  leverage : Int
  position_id : Nat
  entry_time : Int
  status : PositionStatus := .opn
  unrealized_pnl : Rat := 0
  realized_pnl : Rat := 0
deriving DecidableEq, Repr

/-- `PnLCalculator.calculate_unrealized_pnl`: note that it multiplies by
the signed `position.size`, not its absolute value. -/
def calculate_unrealized_pnl (position : PositionData) (current_price : Rat) : Rat :=
  match position.side with
  | .long => (current_price - position.entry_price) * position.size
  | .short => (position.entry_price - current_price) * position.size

/-- `PnLCalculator.calculate_realized_pnl`: multiplies by
`abs(close_quantity)`. -/
def calculate_realized_pnl (position : PositionData) (close_price close_quantity : Rat) :
    Rat :=
  match position.side with
  | .long => (close_price - position.entry_price) * |close_quantity|
  | .short => (position.entry_price - close_price) * |close_quantity|

/-- `PositionManager.update_position_price`. -/
def update_position_price (position : PositionData) (current_price : Rat) : PositionData :=
  let p := { position with current_price := current_price }
  { p with unrealized_pnl := calculate_unrealized_pnl p current_price }

/-- `PositionManager.close_position_full`: `none` models the
`ValueError("Cannot close closed position")` raised on a non-OPEN
position.  It computes the "realized" PnL by calling
`calculate_unrealized_pnl` at the close price. -/
def close_position_full (position : PositionData) (close_price : Rat) :
    Option (PositionData × Rat) :=
  if position.status ≠ .opn then none
  else
    let realized_pnl := calculate_unrealized_pnl position close_price
    some ({ position with
              realized_pnl := realized_pnl
              size := 0
              status := .closed
              unrealized_pnl := 0 },
          realized_pnl)

/-! ## Trade model and factory
(`engine/models/trades.py`, `engine/factories/trade_factory.py`) -/

/-- `TradeData`.  The four running extremes default to `Decimal("0")`. -/
structure TradeData where
  trade_id : Nat
  symbol : String
  entry_order_type : OrderType
  entry_side : OrderSide
  entry_quantity : Rat
  entry_price : Rat
  entry_time : Int
  entry_order_id : String
  position_side : PositionSide
  leverage : Int
  position_id : Nat
  exit_order_type : Option OrderType := none
  exit_price : Option Rat := none
  exit_time : Option Int := none
  exit_order_id : Option String := none
  status : TradeStatus := .opn
  realized_pnl : Rat := 0
  total_fees : Rat := 0
  max_price : Rat := 0
  min_price : Rat := 0
  max_unrealized_pnl : Rat := 0
  min_unrealized_pnl : Rat := 0
deriving DecidableEq, Repr

/-! ## Fee models and calculator
(`engine/models/fees.py`, `engine/services/fee_service.py`) -/

/-- `FeeConfig` with its default rates. -/
structure FeeConfig where
  maker_fee_rate : Rat := 2 / 10000
  taker_fee_rate : Rat := 4 / 10000
  funding_fee_rate : Rat := 1 / 10000
  commission_rate : Rat := 1 / 1000
deriving DecidableEq, Repr

/-- `Fee`. -/
structure Fee where
  fee_type : FeeType
  amount : Rat
  currency : String
  timestamp : Int
  order_id : String := ""
deriving DecidableEq, Repr

/-- `FeeCalculator.calculate_order_fee`: taker rate for market orders,
maker rate otherwise; `amount = quantity · price · rate`. -/
def calculate_order_fee (config : FeeConfig) (order_type : OrderType)
    (quantity price : Rat) (currency : String) (timestamp : Int) : Fee :=
  let rates : Rat × FeeType :=
    if order_type = .market then (config.taker_fee_rate, .taker)
    else (config.maker_fee_rate, .maker)
  { fee_type := rates.2
    amount := quantity * price * rates.1
    currency := currency
    timestamp := timestamp }

/-! ## Order service (`engine/services/order_service.py`) -/

/-- `OrderValidator.validate_order_data`: `(is_valid, error_message)`. -/
def validate_order_data (order : OrderData) : Bool × String :=
  if order.quantity ≤ 0 then (false, "Order quantity must be positive")
  else
    match order.variant with
    | .limit price =>
      if price ≤ 0 then (false, "Limit order price must be positive") else (true, "")
    | .stop_market stop_price =>
      if stop_price ≤ 0 then (false, "Stop price must be positive") else (true, "")
    | .stop_limit stop_price limit_price =>
      if stop_price ≤ 0 then (false, "Stop price must be positive")
      else if limit_price ≤ 0 then (false, "Limit price must be positive")
      else (true, "")
    | .take_profit target_price =>
      if target_price ≤ 0 then (false, "Target price must be positive") else (true, "")
    | .market => (true, "")

/-- `OrderExecutor.can_execute`: the trigger predicate at `current_price`. -/
def can_execute (order : OrderData) (current_price : Rat) : Bool :=
  if order.order_type = .market then true
  else
    match order.variant with
    | .limit price =>
      match order.side with
      | .buy => current_price ≤ price
      | .sell => current_price ≥ price
    | .stop_market stop_price =>
      match order.side with
      | .buy => current_price ≥ stop_price
      | .sell => current_price ≤ stop_price
    | .stop_limit stop_price _ =>
      match order.side with
      | .buy => current_price ≥ stop_price
      | .sell => current_price ≤ stop_price
    | .take_profit target_price =>
      match order.side with
      | .buy => current_price ≥ target_price
      | .sell => current_price ≤ target_price
    | .market => false

/-! ## Candle model (`engine/models/candles.py`, trading fields) -/

/-- `Candle` (the fields used by the backtest; `id`/`created_at` are
storage artifacts and stay out of the embedding). -/
structure Candle where
  open_time : Int := 0
  open_price : Rat := 0
  high_price : Rat := 0
  low_price : Rat := 0
  close_price : Rat := 0
  volume : Rat := 0
  close_time : Int := 0
  quote_asset_volume : Rat := 0
  number_of_trades : Int := 0
  taker_buy_base : Rat := 0
  taker_buy_quote : Rat := 0
  ignore_field : Rat := 0
deriving DecidableEq, Repr, Inhabited

/-! ## Backtest metrics and results (`engine/models/results.py`) -/

/-- `BacktestMetrics`.  The percentage/ratio fields are Python floats in
the source; all numerics are modelled as `Rat`. -/
structure BacktestMetrics where
  strategy_name : String
  symbol : String
  start_time : Int
  end_time : Int
  initial_balance : Rat
  final_balance : Rat
  total_trades : Nat := 0
  closed_trades : Nat := 0
  winning_trades : Nat := 0
  losing_trades : Nat := 0
  total_pnl : Rat := 0
  total_fees : Rat := 0
  net_pnl : Rat := 0
  total_return : Rat := 0
  win_rate : Rat := 0
  max_drawdown : Rat := 0
  profit_factor : Rat := 0
  average_win : Rat := 0
  average_loss : Rat := 0
  average_trade_duration : Option Rat := none
deriving DecidableEq, Repr

/-- `BacktestResultData`. -/
structure BacktestResultData where
  metrics : BacktestMetrics
  trades : List TradeData := []
deriving DecidableEq, Repr

/-! ## Analysis service (`engine/services/analysis_service.py`) -/

/-- `TradeAnalyzer.is_winning_trade`. -/
def is_winning_trade (trade : TradeData) : Bool := trade.realized_pnl > 0

/-- `TradeAnalyzer.calculate_trade_duration`: minutes between entry and
exit (`None` without an exit time).  Times are epoch milliseconds, so
minutes are `(exit − entry) / 60000`. -/
def calculate_trade_duration (trade : TradeData) : Option Rat :=
  match trade.exit_time with
  | none => none
  | some exit_time => some (((exit_time - trade.entry_time : Int) : Rat) / 60000)

/-- `BacktestAnalyzer.calculate_win_rate`. -/
def calculate_win_rate (trades : List TradeData) : Rat :=
  if trades.isEmpty then 0
  else ((trades.filter is_winning_trade).length : Rat) / (trades.length : Rat) * 100

/-- `BacktestAnalyzer.calculate_profit_factor`. -/
def calculate_profit_factor (trades : List TradeData) : Rat :=
  let gross_profit := ((trades.filter (fun t => t.realized_pnl > 0)).map
    (fun t => t.realized_pnl)).sum
  let gross_loss := |((trades.filter (fun t => t.realized_pnl < 0)).map
    (fun t => t.realized_pnl)).sum|
  if gross_loss = 0 then (if gross_profit > 0 then 999999 else 0)
  else gross_profit / gross_loss

/-- `BacktestAnalyzer.calculate_max_drawdown`: walk the closed trades in
order, tracking running balance and running maximum. -/
def calculate_max_drawdown (trades : List TradeData) (initial_balance : Rat) : Rat :=
  if trades.isEmpty then 0
  else
    let step := fun (st : Rat × Rat × Rat) (trade : TradeData) =>
      let (max_balance, max_dd, current_balance) := st
      if trade.status = .closed then
        let current_balance := current_balance + trade.realized_pnl
        let max_balance := max max_balance current_balance
        if max_balance > 0 then
          (max_balance, max max_dd ((max_balance - current_balance) / max_balance * 100),
            current_balance)
        else (max_balance, max_dd, current_balance)
      else st
    (trades.foldl step (initial_balance, 0, initial_balance)).2.1

/-- `BacktestAnalyzer.analyze_backtest`: fill the metrics of a result from
its trades. -/
def analyze_backtest (result_data : BacktestResultData) : BacktestMetrics :=
  let trades := result_data.trades
  let closed_trades := trades.filter (fun t => t.status = .closed)
  let winning_trades := closed_trades.filter is_winning_trade
  let losing_trades := closed_trades.filter (fun t => ! is_winning_trade t)
  let m := result_data.metrics
  let m : BacktestMetrics := { m with
    total_trades := trades.length
    closed_trades := closed_trades.length
    winning_trades := winning_trades.length
    losing_trades := losing_trades.length
    total_pnl := (closed_trades.map (fun t => t.realized_pnl)).sum
    total_fees := (trades.map (fun t => t.total_fees)).sum }
  let m : BacktestMetrics := { m with net_pnl := m.total_pnl - m.total_fees }
  let m : BacktestMetrics :=
    if m.initial_balance > 0 then
      { m with total_return := (m.final_balance - m.initial_balance) / m.initial_balance * 100 }
    else m
  let m : BacktestMetrics := { m with
    win_rate := calculate_win_rate closed_trades
    profit_factor := calculate_profit_factor closed_trades
    max_drawdown := calculate_max_drawdown closed_trades m.initial_balance }
  let m : BacktestMetrics :=
    if winning_trades.isEmpty then m
    else { m with
      average_win := (winning_trades.map (fun t => t.realized_pnl)).sum / winning_trades.length }
  let m : BacktestMetrics :=
    if losing_trades.isEmpty then m
    else { m with
      average_loss := (losing_trades.map (fun t => t.realized_pnl)).sum / losing_trades.length }
  let valid_durations := closed_trades.filterMap calculate_trade_duration
  if valid_durations.isEmpty then m
  else { m with average_trade_duration := some (valid_durations.sum / valid_durations.length) }

/-! ## The backtest event loop (`engine/backtest.py`)

The loop is embedded as a state machine on `EngineState`.  `datetime.now()`
is modelled by a clock `Clock : Nat → Int` read at the index `clk` stored
in the state, one read per source call site, in source order.  Strategies
are modelled through `on_candle` alone (the Python loop calls no other
strategy hook): a pure function from the candle and the account to the
orders to place. -/

/-- The wall clock: the value returned by the n-th `datetime.now()` call. -/
def Clock := Nat → Int

/-- A strategy's `on_candle` callback. -/
def Strategy := Candle → AccountData → List OrderData

/-- The mutable state of `BacktestEngine` together with the order manager's
pending queue and the single account's position map
(`AccountManager._positions[account_id]`, keyed by position id). -/
structure EngineState where
  account : AccountData
  positions : List (Nat × PositionData) := []
  pending_orders : List OrderData := []
  current_trades : List (Nat × TradeData) := []
  completed_trades : List TradeData := []
  position_counter : Nat := 0
  trade_counter : Nat := 0
  clk : Nat := 0

/-- Read `datetime.now()` once and advance the call index. -/
def now (ck : Clock) (s : EngineState) : Int × EngineState :=
  (ck s.clk, { s with clk := s.clk + 1 })

/-- First-match lookup in a position/trade map (Python dict access). -/
def lookup_entry {α : Type} : List (Nat × α) → Nat → Option α
  | [], _ => none
  | e :: rest, key => if e.1 = key then some e.2 else lookup_entry rest key

/-- Replace the value of the first entry with the given key. -/
def update_entry {α : Type} (entries : List (Nat × α)) (key : Nat) (v : α) :
    List (Nat × α) :=
  match entries with
  | [] => []
  | e :: rest =>
    if e.1 = key then (key, v) :: rest else e :: update_entry rest key v

/-- Remove the first entry with the given key (Python `del d[k]`). -/
def erase_entry {α : Type} (entries : List (Nat × α)) (key : Nat) :
    List (Nat × α) :=
  match entries with
  | [] => []
  | e :: rest => if e.1 = key then rest else e :: erase_entry rest key

/-- `AccountManager.get_total_equity`: total base-currency balance plus the
unrealized PnL of all OPEN positions. -/
def get_total_equity (account : AccountData) (positions : List (Nat × PositionData))
    (base_currency : String) : Rat :=
  get_total_balance account base_currency +
    ((positions.filter (fun e => e.2.status = .opn)).map (fun e => e.2.unrealized_pnl)).sum

/-- `TradeData.max_price/min_price/max_unrealized_pnl/min_unrealized_pnl`
update performed per mark in `BacktestEngine._update_positions_and_trades`. -/
def mark_trade (trade : TradeData) (current_price unrealized_pnl : Rat) : TradeData :=
  { trade with
    max_price := max trade.max_price current_price
    min_price := min trade.min_price current_price
    max_unrealized_pnl := max trade.max_unrealized_pnl unrealized_pnl
    min_unrealized_pnl := min trade.min_unrealized_pnl unrealized_pnl }

/-- One iteration of `BacktestEngine._update_positions_and_trades`: look up
the trade's position; if it exists and is OPEN, reprice it and update the
trade's running extremes. -/
def mark_step (current_price : Rat)
    (st : List (Nat × PositionData) × List (Nat × TradeData))
    (entry : Nat × TradeData) :
    List (Nat × PositionData) × List (Nat × TradeData) :=
  match lookup_entry st.1 entry.1 with
  | some p =>
    if p.status = .opn then
      let p' := update_position_price p current_price
      (update_entry st.1 entry.1 p',
        st.2 ++ [(entry.1, mark_trade entry.2 current_price p'.unrealized_pnl)])
    else (st.1, st.2 ++ [entry])
  | none => (st.1, st.2 ++ [entry])

/-- `BacktestEngine._update_positions_and_trades`. -/
def update_positions_and_trades (current_price : Rat) (s : EngineState) : EngineState :=
  let res := s.current_trades.foldl (mark_step current_price) (s.positions, [])
  { s with positions := res.1, current_trades := res.2 }

/-- `OrderManager.place_order`: append to the pending queue (the manager's
validator dependency is not consulted). -/
def place_order (s : EngineState) (order : OrderData) : EngineState :=
  { s with pending_orders := s.pending_orders ++ [order] }

/-- The iteration of `OrderManager.process_orders` over the snapshot of
NEW pending orders: each order that `can_execute` is marked FILLED with
`filled_at = datetime.now()` (one clock read per fill, clock index
threaded through) and removed from the queue.  Returns
`(executed, remaining_queue, next_clock_index)`. -/
def process_orders_go (ck : Clock) (current_price : Rat) :
    List OrderData → Nat → List OrderData × List OrderData × Nat
  | [], k => ([], [], k)
  | o :: rest, k =>
    if o.status = .new ∧ can_execute o current_price then
      let o' := { o with status := .filled, filled_at := some (ck k) }
      let res := process_orders_go ck current_price rest (k + 1)
      (o' :: res.1, res.2.1, res.2.2)
    else
      let res := process_orders_go ck current_price rest k
      (res.1, o :: res.2.1, res.2.2)

/-- `OrderManager.process_orders`. -/
def process_orders (ck : Clock) (current_price : Rat) (s : EngineState) :
    List OrderData × EngineState :=
  let res := process_orders_go ck current_price s.pending_orders s.clk
  (res.1, { s with pending_orders := res.2.1, clk := res.2.2 })

/-- `BacktestEngine._create_position_from_order`: computes the position id
and the signed size (`BUY` gives a positive LONG size, `SELL` a negative
SHORT size), then calls `PositionManager.create_position(symbol=...,
side=..., size=..., entry_price=..., leverage=1, position_id=...)` with
expanded keyword arguments.  `create_position`'s signature takes a single
`params : PositionParams` object, so the call raises
`TypeError: create_position() got an unexpected keyword argument` for
every order, before any position is constructed.  The exception is
modelled as `none`. -/
def create_position_from_order (order : OrderData) (fill_price : Rat)
    (position_id : Nat) : Option PositionData :=
  none

/-- `BacktestEngine._create_trade_from_order_and_position`: calls
`TradeFactory.create_trade(symbol=..., entry_order_type=..., ...)` with
expanded keyword arguments against the signature
`create_trade(self, params: TradeParams)`; Python raises the same
`TypeError` for every input.  Modelled as `none`. -/
def create_trade_from_order_and_position (order : OrderData)
    (position : PositionData) : Option TradeData :=
  none

/-- `BacktestEngine._process_order_execution`, in source order: create the
position from the filled order (`_create_position_from_order` — which
raises `TypeError` on every call, making the rest of the body dead code),
add it to the account, create the companion trade
(`_create_trade_from_order_and_position` — the same `TypeError`), record
it under the position id, and charge the order fee to the account's
`total_fees_paid`.  A raised exception propagates to the caller as
`none`. -/
def process_order_execution (config : FeeConfig) (ck : Clock) (base_currency : String)
    (current_price : Rat) (s : EngineState) (order : OrderData) : Option EngineState :=
  (create_position_from_order order current_price (s.position_counter + 1)).bind
    (fun position =>
      (create_trade_from_order_and_position order position).bind
        (fun trade =>
          let t := now ck s
          let fee := calculate_order_fee config order.order_type order.quantity
            current_price base_currency t.1
          some { t.2 with
            positions := t.2.positions ++ [(position.position_id, position)]
            current_trades := t.2.current_trades ++ [(position.position_id, trade)]
            position_counter := s.position_counter + 1
            account := { t.2.account with
              total_fees_paid := t.2.account.total_fees_paid + fee.amount } }))

/-- The executed-orders loop of one candle of `BacktestEngine.run_backtest`:
`for order in executed_orders: if order.status == FILLED:
self._process_order_execution(order, current_price)`.  The loop sits
outside the strategy `try/except`, so the `TypeError` raised by the first
fill aborts the whole run. -/
def exec_orders (config : FeeConfig) (ck : Clock) (base_currency : String)
    (current_price : Rat) : List OrderData → EngineState → Option EngineState
  | [], s => some s
  | o :: os, s =>
    if o.status = .filled then
      (process_order_execution config ck base_currency current_price s o).bind
        (exec_orders config ck base_currency current_price os)
    else exec_orders config ck base_currency current_price os s

/-- The first three sub-steps of one candle of `BacktestEngine.run_backtest`:
mark-to-market at the candle close, drain the pending orders, and run the
executed-orders loop (whose first fill raises `TypeError`). -/
def step_candle_before_strategy (config : FeeConfig) (ck : Clock) (base_currency : String)
    (s : EngineState) (candle : Candle) : Option EngineState :=
  let current_price := candle.close_price
  let s1 := update_positions_and_trades current_price s
  let res := process_orders ck current_price s1
  exec_orders config ck base_currency current_price res.1 res.2

/-- One candle of `BacktestEngine.run_backtest`: mark-to-market, drain the
pending orders, run the executed-orders loop, then — if no fill aborted
the candle — let the strategy place new orders. -/
def step_candle (config : FeeConfig) (ck : Clock) (base_currency : String)
    (strat : Strategy) (s : EngineState) (candle : Candle) : Option EngineState :=
  (step_candle_before_strategy config ck base_currency s candle).map
    (fun s2 => (strat candle s2.account).foldl place_order s2)

/-- The candle loop of `BacktestEngine.run_backtest`: process the candles
in order, stopping with the exception as soon as a candle's fill path
raises. -/
def run_loop (config : FeeConfig) (ck : Clock) (base_currency : String)
    (strat : Strategy) : List Candle → EngineState → Option EngineState
  | [], s => some s
  | c :: cs, s =>
    (step_candle config ck base_currency strat s c).bind
      (run_loop config ck base_currency strat cs)

/-- `BacktestEngine._close_position`: if the position exists and is OPEN,
close it fully at `close_price`, add the realized PnL to the account's
`total_pnl`, and if a live trade exists complete it: set the exit fields
(`exit_time = datetime.now()`), add the exit fee (computed with the entry
order type, reading the clock for its timestamp), subtract the trade's
`total_fees` from its realized PnL, and move it to `completed_trades`. -/
def close_position (config : FeeConfig) (ck : Clock) (base_currency : String)
    (close_price : Rat) (close_order_id : String) (s : EngineState)
    (position_id : Nat) : EngineState :=
  match lookup_entry s.positions position_id with
  | none => s
  | some position =>
    if position.status ≠ .opn then s
    else
      match close_position_full position close_price with
      | none => s
      | some pr =>
        let s1 := { s with
          positions := update_entry s.positions position_id pr.1
          account := { s.account with total_pnl := s.account.total_pnl + pr.2 } }
        match lookup_entry s1.current_trades position_id with
        | none => s1
        | some trade =>
          let te := now ck s1
          let trade1 := { trade with
            exit_price := some close_price
            exit_time := some te.1
            exit_order_id := some close_order_id
            status := TradeStatus.closed
            realized_pnl := pr.2 }
          let tf := now ck te.2
          let exit_fee := calculate_order_fee config trade1.entry_order_type
            trade1.entry_quantity close_price base_currency tf.1
          let trade2 := { trade1 with total_fees := trade1.total_fees + exit_fee.amount }
          let trade3 := { trade2 with realized_pnl := trade2.realized_pnl - trade2.total_fees }
          { tf.2 with
            current_trades := erase_entry tf.2.current_trades position_id
            completed_trades := tf.2.completed_trades ++ [trade3] }

/-- The engine state right after `create_account`
(`AccountManager.create_account` builds the account with
`created_at = datetime.now()` and credits the initial balance to the base
currency). -/
def initial_state (ck : Clock) (base_currency : String) (initial_balance : Rat) :
    EngineState :=
  let account0 : AccountData := { account_id := "account", created_at := ck 0 }
  { account := add_balance account0 base_currency initial_balance, clk := 1 }

/-- `BacktestEngine.run_backtest` down to the engine state: `none` models
the `ValueError("No candle data provided")` on an empty candle list and
the `TypeError` escaping the candle loop when any order fills.  The
account is created first (`AccountManager.create_account`, reading the
clock for `created_at`); then the per-candle loop runs; then every
position with a live trade is force-closed at the final candle's close
with exit id `"final_close"`. -/
def run_backtest_state (config : FeeConfig) (ck : Clock) (base_currency : String)
    (strat : Strategy) (initial_balance : Rat) (candles : List Candle) :
    Option EngineState :=
  match candles with
  | [] => none
  | c0 :: cs =>
    let s0 := initial_state ck base_currency initial_balance
    (run_loop config ck base_currency strat (c0 :: cs) s0).map
      (fun s_end =>
        let final_price := ((c0 :: cs).getLastI).close_price
        let remaining_positions := s_end.current_trades.map (fun e => e.1)
        remaining_positions.foldl
          (close_position config ck base_currency final_price "final_close") s_end)

/-- `BacktestEngine.run_backtest`: run the loop, compute the final balance
as the account's total equity, build the initial metrics from the candle
range, and analyze the completed trades. -/
def run_backtest (config : FeeConfig) (ck : Clock) (base_currency : String)
    (strat : Strategy) (strategy_name symbol : String) (initial_balance : Rat)
    (candles : List Candle) : Option BacktestResultData :=
  match candles, run_backtest_state config ck base_currency strat initial_balance candles with
  | _, none => none
  | [], some _ => none
  | c0 :: cs, some s_final =>
    let final_balance := get_total_equity s_final.account s_final.positions base_currency
    let metrics : BacktestMetrics :=
      { strategy_name := strategy_name
        symbol := symbol
        start_time := c0.open_time
        end_time := ((c0 :: cs).getLastI).close_time
        initial_balance := initial_balance
        final_balance := final_balance }
    let result_data : BacktestResultData :=
      { metrics := metrics, trades := s_final.completed_trades }
    some { result_data with metrics := analyze_backtest result_data }

/-! ## Concrete instances used by the theorems -/

/-- The clock that returns `0` on every `datetime.now()` call. -/
def zero_clock : Clock := fun _ => 0

/-- The clock that returns the call index (strictly increasing). -/
def index_clock : Clock := fun k => (k : Int)

/-- A SHORT position of one unit opened at 100, as
`BacktestEngine._create_position_from_order` builds it for a SELL of
quantity 1 filled at 100 (`size = -quantity`). -/
def ex_short_position : PositionData :=
  { symbol := "BTCUSDT"
    side := .short
    size := -1
    entry_price := 100
    current_price := 100
    leverage := 1
    position_id := 1
    entry_time := 0 }

/-- A LONG position of one unit opened at 100 (BUY of quantity 1). -/
def ex_long_position : PositionData :=
  { symbol := "BTCUSDT"
    side := .long
    size := 1
    entry_price := 100
    current_price := 100
    leverage := 1
    position_id := 1
    entry_time := 0 }

/-- A market BUY order with non-positive quantity (−1): invalid per the
validator, yet accepted by `place_order`. -/
def ex_bad_order : OrderData :=
  { symbol := "BTCUSDT"
    side := .buy
    quantity := -1
    order_id := "order_1"
    variant := .market }

/-- An engine state with a fresh account and nothing else, as after
`create_account` with 10000 USDT. -/
def ex_state0 : EngineState :=
  { account := add_balance { account_id := "account" } "USDT" 10000, clk := 1 }

/-- A kline row at `open_time = t` with zero prices/volumes (the numeric
fields play no role in the fetch-loop claims). -/
def ex_row (t : Int) : KlineRow :=
  { open_time := t
    open_price := 0
    high_price := 0
    low_price := 0
    close_price := 0
    volume := 0
    close_time := t + 59999
    quote_asset_volume := 0
    number_of_trades := 0
    taker_buy_base := 0
    taker_buy_quote := 0
    ignore_field := 0 }

/-- A fetch client that always returns the ascending two-row batch at
open times 60000 and 120000. -/
def ex_fetch_batch : Int → List KlineRow := fun _ => [ex_row 60000, ex_row 120000]

/-- A one-minute candle at index `i` whose four prices all equal `close`. -/
def mk_candle (i : Int) (close : Rat) : Candle :=
  { open_time := i * 60000
    open_price := close
    high_price := close
    low_price := close
    close_price := close
    close_time := i * 60000 + 59999 }

/-- A market BUY of quantity 1. -/
def ex_market_buy : OrderData :=
  { symbol := "BTCUSDT", side := .buy, quantity := 1, order_id := "order_1",
    variant := .market }

/-- A market SELL of quantity 1. -/
def ex_market_sell : OrderData :=
  { symbol := "BTCUSDT", side := .sell, quantity := 1, order_id := "order_2",
    variant := .market }

/-- A strategy that issues a market BUY on the candle at `open_time = 0`
and nothing afterwards. -/
def c7_strategy : Strategy := fun c _ =>
  if c.open_time = 0 then [ex_market_buy] else []

/-- Three candles: close 100, 100, 90.  The BUY placed on candle 0 fills
on candle 1 at 100; the only mark-to-market of the open position happens
on candle 2 at 90, with unrealized PnL −10. -/
def c7_candles : List Candle := [mk_candle 0 100, mk_candle 1 100, mk_candle 2 90]

/-- A freshly created trade as `TradeFactory.create_trade` builds it for a
market BUY of 1 at 100 (running PnL extremes at their `Decimal("0")`
defaults). -/
def ex_trade : TradeData :=
  { trade_id := 1, symbol := "BTCUSDT", entry_order_type := .market,
    entry_side := .buy, entry_quantity := 1, entry_price := 100, entry_time := 0,
    entry_order_id := "order_1", position_side := .long, leverage := 1,
    position_id := 1, max_price := 100, min_price := 100 }

/-- The S4 scenario strategy: market BUY of 1 on the candle at
`open_time = 0` (candle 0) and market SELL of 1 on the candle at
`open_time = 600000` (candle 10). -/
def c3_strategy : Strategy := fun c _ =>
  if c.open_time = 0 then [ex_market_buy]
  else if c.open_time = 600000 then [ex_market_sell] else []

/-- The S4 scenario data: candles 0..9 close at 100, candle 10 closes at
120. -/
def c3_candles : List Candle :=
  [mk_candle 0 100, mk_candle 1 100, mk_candle 2 100, mk_candle 3 100,
   mk_candle 4 100, mk_candle 5 100, mk_candle 6 100, mk_candle 7 100,
   mk_candle 8 100, mk_candle 9 100, mk_candle 10 120]

/-- An engine state with 10000 USDT and the market BUY of quantity 1
already pending (as after the candle on which the strategy placed it). -/
def c8_state : EngineState :=
  { account := add_balance { account_id := "account" } "USDT" 10000
    pending_orders := [ex_market_buy]
    clk := 1 }

/-- The strategy that never places an order (its runs complete: no order
ever fills). -/
def null_strategy : Strategy := fun _ _ => []

/-- A strategy that places the market SELL of quantity 1 on candle 0. -/
def c10_strategy : Strategy := fun c _ =>
  if c.open_time = 0 then [ex_market_sell] else []

/-- Two candles closing at 100: the SELL placed on candle 0 executes on
candle 1 and the engine aborts there. -/
def c10_candles : List Candle := [mk_candle 0 100, mk_candle 1 100]

/-- C1.  The claim states that marking or closing a SHORT at price `p`
yields `(entry − p)·|size|`, so that fully closing a SHORT opened at 100
at price 90 returns a positive realized PnL (+10).  The code multiplies by
the signed `size` (negative for SHORT) in `calculate_unrealized_pnl`, and
`close_position_full` computes its "realized" PnL through that same
function: both return −10 at this input, the sign opposite to the spec
formula, while the sibling `calculate_realized_pnl` (which takes
`abs(close_quantity)`, but is not the function `close_position_full`
calls) returns the spec value +10.  The LONG-side conjuncts show the LONG
formulas do match the spec. -/
theorem c1_short_close_sign_flipped :
    calculate_unrealized_pnl ex_short_position 90 = -10 ∧
    (close_position_full ex_short_position 90).map (fun pr => pr.2) = some (-10) ∧
    calculate_realized_pnl ex_short_position 90 (-1) = 10 ∧
    calculate_unrealized_pnl ex_long_position 110 = 10 ∧
    (close_position_full ex_long_position 110).map (fun pr => pr.2) = some 10 ∧
    calculate_realized_pnl ex_long_position 110 1 = 10 := by
  refine ⟨?_, ?_, ?_, ?_, ?_, ?_⟩ <;>
    simp [calculate_unrealized_pnl, close_position_full, calculate_realized_pnl,
      ex_short_position, ex_long_position] <;> norm_num

/-! ## C4: order validation before queueing -/

/-- C4.  The claim states every submitted order is validated before being
queued, and an order with `quantity ≤ 0` is rejected, never enters the
pending queue and is never filled.  In the code, `OrderManager.place_order`
appends the order to `_pending_orders` without consulting the validator:
the market BUY of quantity −1 is queued, and on the next
`process_orders` call it is filled (market orders always trigger) and
returned as executed — even though `validate_order_data` classifies it as
invalid with the typed reason the claim names. -/
theorem c4_invalid_order_queued_and_filled :
    validate_order_data ex_bad_order = (false, "Order quantity must be positive") ∧
    (place_order ex_state0 ex_bad_order).pending_orders = [ex_bad_order] ∧
    (process_orders zero_clock 100 (place_order ex_state0 ex_bad_order)).1 =
      [{ ex_bad_order with status := .filled, filled_at := some 0 }] ∧
    (process_orders zero_clock 100 (place_order ex_state0 ex_bad_order)).2.pending_orders
      = [] := by
  refine ⟨?_, ?_, ?_, ?_⟩ <;>
    simp [validate_order_data, ex_bad_order, place_order, ex_state0, process_orders,
      process_orders_go, can_execute, OrderData.order_type, zero_clock]

/-! ## C5: the incremental updater's forward fetch loop -/

/-- Folding `min` over a list whose elements all dominate the initial
accumulator returns the initial accumulator. -/
theorem foldl_min_eq_init (l : List Int) (a : Int) (h : ∀ x ∈ l, a ≤ x) :
    l.foldl min a = a := by
  induction l generalizing a with
  | nil => rfl
  | cons x xs ih =>
    simp only [List.foldl_cons]
    rw [min_eq_left (h x (by simp))]
    exact ih a fun y hy => h y (by simp [hy])

/-- C5 counterexample.  The claim states the cursor is advanced to
`max(batch.open_time) + 1` before the next window is fetched.  With a
batch at open times 60000 and 120000 (ascending, as the venue returns
them) and cursor 0, the loop body sets the next cursor from
`data[0].open_time`, i.e. to 60001 — not to `120000 + 1 = 120001` as the
claim requires. -/
theorem c5_cursor_not_advanced_to_max :
    (fetch_new_data ex_fetch_batch 1000000000 60000 1 0 []).cursor = 60001 ∧
    (60001 : Int) ≠ 120000 + 1 := by
  constructor
  · simp [fetch_new_data, ex_fetch_batch, ex_row, API_LIMIT]
  · decide

/-- C5 amended.  One iteration of `fetch_new_data` from cursor
`start_time < end_time`: an empty raw batch stops the loop with the state
unchanged; otherwise rows with `open_time ≤ start_time` are discarded by
the filter, an empty filtered batch stops the loop, and a non-empty
filtered batch recurses with cursor `data[0].open_time + 1` — which, for a
batch ascending in `open_time`, is `min(batch.open_time) + 1` (not
`max + 1` as the original claim states). -/
theorem c5_fetch_loop_step (fetch_batch : Int → List KlineRow)
    (end_time width_ms : Int) (fuel : Nat) (start_time : Int) (acc : List KlineRow)
    (hrun : start_time < end_time) :
    (fetch_batch (min (start_time + API_LIMIT * width_ms) end_time) = [] →
      fetch_new_data fetch_batch end_time width_ms (fuel + 1) start_time acc
        = ⟨acc, start_time⟩) ∧
    (∀ d0 ds, fetch_batch (min (start_time + API_LIMIT * width_ms) end_time) = d0 :: ds →
      ((d0 :: ds).filter (fun row => start_time < row.open_time) = [] →
        fetch_new_data fetch_batch end_time width_ms (fuel + 1) start_time acc
          = ⟨acc, start_time⟩) ∧
      ((d0 :: ds).filter (fun row => start_time < row.open_time) ≠ [] →
        (List.Pairwise (fun a b : KlineRow => a.open_time ≤ b.open_time) (d0 :: ds) →
          ((d0 :: ds).map (fun r => r.open_time)).foldl min d0.open_time = d0.open_time) ∧
        fetch_new_data fetch_batch end_time width_ms (fuel + 1) start_time acc
          = fetch_new_data fetch_batch end_time width_ms fuel (d0.open_time + 1)
              (acc ++ (d0 :: ds).filter (fun row => start_time < row.open_time)))) := by
  constructor
  · intro hempty
    simp only [fetch_new_data, if_pos hrun, hempty]
  · intro d0 ds hdata
    constructor
    · intro hfilter
      simp only [fetch_new_data, if_pos hrun, hdata, hfilter, List.isEmpty_nil, if_pos]
    · intro hfilter
      constructor
      · intro hpair
        simp only [List.map_cons, List.foldl_cons, min_self]
        refine foldl_min_eq_init _ _ ?_
        intro x hx
        rcases List.mem_map.mp hx with ⟨r, hr, rfl⟩
        exact (List.pairwise_cons.mp hpair).1 r hr
      · have hne : ((d0 :: ds).filter (fun row => start_time < row.open_time)).isEmpty = false := by
          rcases h' : (d0 :: ds).filter (fun row => start_time < row.open_time) with _ | _
          · exact absurd h' hfilter
          · rw [h']; rfl
        simp only [fetch_new_data, if_pos hrun, hdata, hne, Bool.false_eq_true, if_neg,
          not_false_eq_true]

/-- C5 witness: the amended characterization applied to the concrete
two-row client at cursor 0 — the loop recurses with cursor 60001 and both
rows accumulated. -/
theorem c5_fetch_loop_step_witness :
    fetch_new_data ex_fetch_batch 1000000000 60000 1 0 []
      = fetch_new_data ex_fetch_batch 1000000000 60000 0 60001
          ([] ++ [ex_row 60000, ex_row 120000].filter (fun row => (0:Int) < row.open_time)) ∧
    ([ex_row 60000, ex_row 120000].map (fun r => r.open_time)).foldl min 60000 = 60000 := by
  have h := c5_fetch_loop_step ex_fetch_batch 1000000000 60000 0 0 [] (by norm_num)
  have h2 := (h.2 (ex_row 60000) [ex_row 120000] rfl).2 (by simp [ex_row])
  refine ⟨by simpa [ex_row] using h2.2, ?_⟩
  have h3 := h2.1 (by simp [ex_row, List.pairwise_cons])
  simp only [ex_row] at h3 ⊢
  convert h3 using 2

/-! ## Aggregator lemmas (shared by C6 and C9) -/

instance : IsTotal KlineRow (fun a b => a.open_time ≤ b.open_time) :=
  ⟨fun a b => Int.le_total a.open_time b.open_time⟩

instance : IsTrans KlineRow (fun a b => a.open_time ≤ b.open_time) :=
  ⟨fun _ _ _ hab hbc => le_trans hab hbc⟩

/-- The group sort is a permutation of the group. -/
theorem sort_rows_perm (g : List KlineRow) : (sort_rows g).Perm g :=
  List.perm_insertionSort _ g

/-- Sorting a non-empty group yields a non-empty list. -/
theorem sort_rows_ne_nil {g : List KlineRow} (h : g ≠ []) : sort_rows g ≠ [] := by
  intro he
  have hp := sort_rows_perm g
  rw [he] at hp
  exact h hp.symm.eq_nil

/-- `headI` of a non-empty list is a member. -/
theorem headI_mem_of_ne_nil {α : Type} [Inhabited α] {l : List α} (h : l ≠ []) :
    l.headI ∈ l := by
  cases l with
  | nil => exact absurd rfl h
  | cons a t => simp [List.headI]

/-- The aggregated row's `open_time` is the `open_time` of some row of the
group. -/
theorem aggregate_group_open_time_mem {g : List KlineRow} (h : g ≠ []) :
    ∃ r ∈ g, (aggregate_group g).open_time = r.open_time := by
  refine ⟨(sort_rows g).headI, ?_, rfl⟩
  exact (sort_rows_perm g).mem_iff.mp (headI_mem_of_ne_nil (sort_rows_ne_nil h))

/-- The aggregated row's `open_time` is the least `open_time` of the group. -/
theorem aggregate_group_open_time_le {g : List KlineRow} (h : g ≠ []) :
    ∀ r ∈ g, (aggregate_group g).open_time ≤ r.open_time := by
  intro r hr
  have hr' : r ∈ sort_rows g := (sort_rows_perm g).mem_iff.mpr hr
  have hsorted := List.sorted_insertionSort (fun a b : KlineRow => a.open_time ≤ b.open_time) g
  rcases he : sort_rows g with _ | ⟨x, xs⟩
  · exact absurd he (sort_rows_ne_nil h)
  · have hopen : (aggregate_group g).open_time = x.open_time := by
      show (sort_rows g).headI.open_time = x.open_time
      rw [he]
      rfl
    rw [he] at hr'
    unfold sort_rows at he
    rw [he] at hsorted
    rcases List.mem_cons.mp hr' with rfl | hmem
    · exact le_of_eq hopen
    · rw [hopen]
      exact (List.sorted_cons.mp hsorted).1 r hmem

/-- If all rows of a group share the bucket `b`, so does the aggregated
row. -/
theorem aggregate_group_bucket (w b : Int) (h : KlineRow) (t : List KlineRow)
    (Hh : get_interval_start h.open_time w = b)
    (Ht : ∀ r ∈ t, get_interval_start r.open_time w = b) :
    get_interval_start (aggregate_group (h :: t)).open_time w = b := by
  obtain ⟨r0, hr0, hopen⟩ := aggregate_group_open_time_mem (g := h :: t) (by simp)
  rw [hopen]
  rcases List.mem_cons.mp hr0 with rfl | hmem
  · exact Hh
  · exact Ht r0 hmem

/-- A bucket start is never after the timestamp it is computed from
(positive bucket width). -/
theorem interval_start_le {m : Int} (hm : 0 < m) (t : Int) :
    get_interval_start t m ≤ t := by
  unfold get_interval_start
  have h60 : (0 : Int) < m * 60 := by positivity
  have h1 : t / 1000 / (m * 60) * (m * 60) ≤ t / 1000 :=
    Int.ediv_mul_le _ (ne_of_gt h60)
  have h2 : t / 1000 / (m * 60) * (m * 60) * 1000 ≤ t / 1000 * 1000 :=
    mul_le_mul_of_nonneg_right h1 (by norm_num)
  have h3 : t / 1000 * 1000 ≤ t := Int.ediv_mul_le _ (by norm_num)
  exact le_trans h2 h3

/-- If every row of a group has bucket `b` and the group's arrival head
sits exactly on the bucket boundary (`open_time = b`), the aggregated
row's `open_time` is `b` and is bucket-aligned. -/
theorem aggregate_group_aligned {w b : Int} (hw : 0 < w) (h : KlineRow)
    (t : List KlineRow) (Hh : get_interval_start h.open_time w = b)
    (Hho : h.open_time = b)
    (Ht : ∀ r ∈ t, get_interval_start r.open_time w = b) :
    get_interval_start (aggregate_group (h :: t)).open_time w
      = (aggregate_group (h :: t)).open_time := by
  obtain ⟨r0, hr0, hopen⟩ := aggregate_group_open_time_mem (g := h :: t) (by simp)
  have hbr0 : get_interval_start r0.open_time w = b := by
    rcases List.mem_cons.mp hr0 with rfl | hmem
    · exact Hh
    · exact Ht r0 hmem
  have hge : b ≤ (aggregate_group (h :: t)).open_time := by
    rw [hopen]
    exact hbr0 ▸ interval_start_le hw r0.open_time
  have hle : (aggregate_group (h :: t)).open_time ≤ b := by
    rw [← Hho]
    exact aggregate_group_open_time_le (by simp) h (by simp)
  have heq : (aggregate_group (h :: t)).open_time = b := le_antisymm hle hge
  rw [hopen, hbr0, ← heq]
  exact hopen

/-- The grouping loop's output is non-empty, its first row keeps the
current group's bucket, and consecutive output rows have distinct buckets. -/
theorem agg_loop_spec (w : Int) : ∀ (rest : List KlineRow) (h : KlineRow)
    (t : List KlineRow) (b : Int),
    get_interval_start h.open_time w = b →
    (∀ r ∈ t, get_interval_start r.open_time w = b) →
    ∃ k ks, agg_loop w h t b rest = k :: ks ∧
      get_interval_start k.open_time w = b ∧
      List.Chain' (fun a c =>
        get_interval_start a.open_time w ≠ get_interval_start c.open_time w) (k :: ks) := by
  intro rest
  induction rest with
  | nil =>
    intro h t b Hh Ht
    exact ⟨aggregate_group (h :: t), [], rfl, aggregate_group_bucket w b h t Hh Ht,
      List.chain'_singleton _⟩
  | cons r rest ih =>
    intro h t b Hh Ht
    by_cases hb : get_interval_start r.open_time w = b
    · rw [agg_loop, if_pos hb]
      refine ih h (t ++ [r]) b Hh ?_
      intro x hx
      rcases List.mem_append.mp hx with hx | hx
      · exact Ht x hx
      · simp only [List.mem_singleton] at hx
        exact hx ▸ hb
    · rw [agg_loop, if_neg hb]
      obtain ⟨k', ks', heq', hbk', hchain'⟩ :=
        ih r [] (get_interval_start r.open_time w) rfl (by simp)
      refine ⟨aggregate_group (h :: t), k' :: ks', by rw [heq'],
        aggregate_group_bucket w b h t Hh Ht, ?_⟩
      rw [List.chain'_cons]
      refine ⟨?_, hchain'⟩
      rw [aggregate_group_bucket w b h t Hh Ht, hbk']
      exact fun hcontra => hb hcontra.symm

/-- Aggregating a single row reproduces the row. -/
theorem aggregate_group_singleton (r : KlineRow) : aggregate_group [r] = r := by
  simp [aggregate_group, sort_rows, List.insertionSort, List.orderedInsert,
    List.headI, List.getLastI]

/-- Re-running the grouping loop over a list whose consecutive rows have
distinct buckets reproduces the list. -/
theorem agg_loop_chain_id (w : Int) : ∀ (ks : List KlineRow) (k : KlineRow),
    List.Chain' (fun a c =>
      get_interval_start a.open_time w ≠ get_interval_start c.open_time w) (k :: ks) →
    agg_loop w k [] (get_interval_start k.open_time w) ks = k :: ks := by
  intro ks
  induction ks with
  | nil => intro k _; rw [agg_loop, aggregate_group_singleton]
  | cons k' ks' ih =>
    intro k hchain
    rw [List.chain'_cons] at hchain
    rw [agg_loop, if_neg (fun hcontra => hchain.1 hcontra.symm),
      aggregate_group_singleton, ih k' hchain.2]

/-! ## C9: aggregation idempotence and identity at 1m -/

/-- C9.  For every target interval `i` and input `X`,
`aggregate(aggregate(X, i), i) = aggregate(X, i)`, and aggregation at the
`1m` target returns `X` unchanged: the grouping loop emits one row per
maximal run of equal-bucket rows, consecutive output rows therefore sit in
distinct buckets, and re-aggregation turns every output row into its own
singleton group, which `_aggregate_group` maps to itself. -/
theorem c9_aggregation_idempotent (target : Interval) (X : List KlineRow) :
    aggregate_to_interval target (aggregate_to_interval target X)
      = aggregate_to_interval target X ∧
    aggregate_to_interval .i1m X = X := by
  refine ⟨?_, by simp [aggregate_to_interval]⟩
  by_cases h1m : target = .i1m
  · subst h1m; simp [aggregate_to_interval]
  · cases X with
    | nil => simp [aggregate_to_interval, h1m]
    | cons r rest =>
      obtain ⟨k, ks, heq, _, hchain⟩ := agg_loop_spec (interval_minutes target) rest r []
        (get_interval_start r.open_time (interval_minutes target)) rfl (by simp)
      have houter : aggregate_to_interval target (r :: rest) = k :: ks := by
        simp only [aggregate_to_interval, if_neg h1m]
        exact heq
      rw [houter]
      simp only [aggregate_to_interval, if_neg h1m]
      exact agg_loop_chain_id (interval_minutes target) ks k hchain

/-! ## C6: bucket alignment of aggregated open times -/

/-- Every output row of the grouping loop is bucket-aligned, provided the
arrival head of the current group sits on its bucket boundary and every
later group-head row of the remaining input is bucket-aligned. -/
theorem agg_loop_aligned (w : Int) (hw : 0 < w) : ∀ (rest : List KlineRow)
    (h : KlineRow) (t : List KlineRow) (b : Int),
    get_interval_start h.open_time w = b →
    h.open_time = b →
    (∀ r ∈ t, get_interval_start r.open_time w = b) →
    (∀ r ∈ run_heads_aux w b rest, get_interval_start r.open_time w = r.open_time) →
    ∀ c ∈ agg_loop w h t b rest, get_interval_start c.open_time w = c.open_time := by
  intro rest
  induction rest with
  | nil =>
    intro h t b Hh Hho Ht _ c hc
    rw [agg_loop] at hc
    simp only [List.mem_singleton] at hc
    subst hc
    exact aggregate_group_aligned hw h t Hh Hho Ht
  | cons r rest ih =>
    intro h t b Hh Hho Ht Haux c hc
    by_cases hb : get_interval_start r.open_time w = b
    · rw [agg_loop, if_pos hb] at hc
      refine ih h (t ++ [r]) b Hh Hho ?_ ?_ c hc
      · intro x hx
        rcases List.mem_append.mp hx with hx | hx
        · exact Ht x hx
        · simp only [List.mem_singleton] at hx
          exact hx ▸ hb
      · intro x hx
        refine Haux x ?_
        rw [run_heads_aux, if_pos hb]
        exact hx
    · rw [agg_loop, if_neg hb] at hc
      have Haux' : ∀ x ∈ r :: run_heads_aux w (get_interval_start r.open_time w) rest,
          get_interval_start x.open_time w = x.open_time := by
        intro x hx
        refine Haux x ?_
        rw [run_heads_aux, if_neg hb]
        exact hx
      rcases List.mem_cons.mp hc with rfl | hc'
      · exact aggregate_group_aligned hw h t Hh Hho Ht
      · have hr_aligned : get_interval_start r.open_time w = r.open_time :=
          Haux' r (by simp)
        exact ih r [] (get_interval_start r.open_time w) rfl hr_aligned.symm
          (by simp) (fun x hx => Haux' x (List.mem_cons_of_mem r hx)) c hc'

/-- C6 counterexample.  The claim states every aggregated candle satisfies
`bucket_start(open_time, w) == open_time` *even when the bucket's first
minute is missing from the input*.  Aggregating the single 1m row at
`open_time = 60000` (the second minute of the 5m bucket `[0, 300000)`,
whose first minute is absent) to 5m emits that row with
`open_time = 60000`, while its 5m bucket start is `0`. -/
theorem c6_unaligned_when_first_minute_missing :
    aggregate_to_interval .i5m [ex_row 60000] = [ex_row 60000] ∧
    get_interval_start 60000 (interval_minutes .i5m) ≠ 60000 := by
  constructor
  · have h1 : aggregate_to_interval .i5m [ex_row 60000]
        = [aggregate_group [ex_row 60000]] := by
      simp [aggregate_to_interval, agg_loop]
    rw [h1, aggregate_group_singleton]
  · decide

/-- C6 amended.  For a coarser target interval, every aggregated candle's
`open_time` is the `open_time` of the earliest row of its group, so the
alignment invariant `bucket_start(open_time, w) == open_time` holds
exactly when each group's head row sits on its bucket boundary — e.g. for
input that contains each aggregated bucket's first minute — and can fail
when a bucket's first minute is missing (see the counterexample).  At the
`1m` target the aggregator is the identity and adds no alignment. -/
theorem c6_aligned_of_run_heads_aligned (target : Interval) (X : List KlineRow)
    (h1m : target ≠ .i1m)
    (halign : ∀ r ∈ run_heads (interval_minutes target) X,
      get_interval_start r.open_time (interval_minutes target) = r.open_time) :
    ∀ c ∈ aggregate_to_interval target X,
      get_interval_start c.open_time (interval_minutes target) = c.open_time := by
  have hw : 0 < interval_minutes target := by cases target <;> norm_num [interval_minutes]
  cases X with
  | nil =>
    intro c hc
    simp [aggregate_to_interval, h1m] at hc
  | cons r rest =>
    intro c hc
    simp only [aggregate_to_interval, if_neg h1m] at hc
    have hr : get_interval_start r.open_time (interval_minutes target) = r.open_time := by
      refine halign r ?_
      rw [run_heads]
      exact List.mem_cons_self r _
    refine agg_loop_aligned (interval_minutes target) hw rest r [] _ rfl hr.symm
      (by simp) ?_ c hc
    intro x hx
    refine halign x ?_
    rw [run_heads]
    exact List.mem_cons_of_mem r hx

/-- C6 witness: the amended theorem applied to the 5m aggregation of the
two rows at minutes 0 and 1 — both fall in the bucket starting at 0, the
group head (minute 0) is aligned, and the single output candle is
aligned. -/
theorem c6_aligned_witness :
    get_interval_start
      (aggregate_to_interval .i5m [ex_row 0, ex_row 60000]).headI.open_time
      (interval_minutes .i5m)
      = (aggregate_to_interval .i5m [ex_row 0, ex_row 60000]).headI.open_time := by
  refine c6_aligned_of_run_heads_aligned .i5m [ex_row 0, ex_row 60000] (by decide) ?_ _ ?_
  · intro r hr
    simp only [run_heads, run_heads_aux] at hr
    rw [if_pos (by decide)] at hr
    simp only [List.mem_singleton] at hr
    subst hr
    decide
  · have h1 : aggregate_to_interval .i5m [ex_row 0, ex_row 60000]
        = [aggregate_group [ex_row 0, ex_row 60000]] := by
      simp only [aggregate_to_interval, agg_loop]
      rw [if_neg (by decide), if_pos (by decide)]
      rfl
    rw [h1]
    exact headI_mem_of_ne_nil (by simp)

/-! ## C7: the trade's running unrealized-PnL extremes -/

/-- Folding the per-mark update over a trade accumulates `max`/`min` of
the observed unrealized PnL values on top of the trade's current
extremes. -/
theorem mark_trade_foldl (ups : List (Rat × Rat)) : ∀ t : TradeData,
    (ups.foldl (fun tr pu => mark_trade tr pu.1 pu.2) t).max_unrealized_pnl
      = ups.foldl (fun a pu => max a pu.2) t.max_unrealized_pnl ∧
    (ups.foldl (fun tr pu => mark_trade tr pu.1 pu.2) t).min_unrealized_pnl
      = ups.foldl (fun a pu => min a pu.2) t.min_unrealized_pnl := by
  induction ups with
  | nil => intro t; exact ⟨rfl, rfl⟩
  | cons pu rest ih =>
    intro t
    simpa [mark_trade] using ih (mark_trade t pu.1 pu.2)

/-- The initial accumulator bounds a `max`-fold from below. -/
theorem le_foldl_max (ups : List (Rat × Rat)) : ∀ a : Rat,
    a ≤ ups.foldl (fun x pu => max x pu.2) a := by
  induction ups with
  | nil => intro a; exact le_refl a
  | cons pu rest ih =>
    intro a
    exact le_trans (le_max_left a pu.2) (ih (max a pu.2))

/-- The initial accumulator bounds a `min`-fold from above. -/
theorem foldl_min_le (ups : List (Rat × Rat)) : ∀ a : Rat,
    ups.foldl (fun x pu => min x pu.2) a ≤ a := by
  induction ups with
  | nil => intro a; exact le_refl a
  | cons pu rest ih =>
    intro a
    exact le_trans (ih (min a pu.2)) (min_le_left a pu.2)

/-- C7.  The claim states that for every Trade completed by the loop the
recorded extremes are the max/min of the unrealized PnL values observed
at the mark-to-market steps — in particular a negative maximum for a
position whose every observed value was negative.  In the code no Trade
is ever completed: the BUY of the three-candle scenario is marked FILLED
on candle 1, and `_process_order_execution` then raises `TypeError` (its
`create_position(**kwargs)` call does not match
`create_position(self, params)`), aborting the run before any trade — and
hence any recorded extreme — exists.  The `mark_trade` code that would
maintain the extremes is unreachable. -/
theorem c7_no_completed_trade_records_extremes :
    run_backtest_state {} zero_clock "USDT" c7_strategy 10000 c7_candles = none ∧
    run_backtest {} zero_clock "USDT" c7_strategy "strategy" "BTCUSDT" 10000
      c7_candles = none := by
  constructor
  · simp [run_backtest_state, run_loop, step_candle, step_candle_before_strategy,
      update_positions_and_trades, mark_step, process_orders, process_orders_go,
      exec_orders, process_order_execution, create_position_from_order, place_order,
      initial_state, now, add_balance, find_balance, can_execute, OrderData.order_type,
      c7_strategy, c7_candles, mk_candle, ex_market_buy, zero_clock]
  · simp [run_backtest, run_backtest_state, run_loop, step_candle,
      step_candle_before_strategy, update_positions_and_trades, mark_step,
      process_orders, process_orders_go, exec_orders, process_order_execution,
      create_position_from_order, place_order, initial_state, now, add_balance,
      find_balance, can_execute, OrderData.order_type, c7_strategy, c7_candles,
      mk_candle, ex_market_buy, zero_clock]

/-! ## C3: the S4 simple-long-trade scenario -/

/-- C3.  The claim states the S4 scenario (BUY qty 1 on candle 0, SELL
qty 1 on candle 10) yields exactly one CLOSED trade with
`realized_pnl = 19.912` and the corresponding metrics.  In the code the
run never gets that far: when the market BUY fills on candle 1,
`_process_order_execution` raises `TypeError`
(`create_position(**kwargs)` against `create_position(self, params)`) and
`run_backtest` aborts — no trade and no metrics are produced at all. -/
theorem c3_scenario_raises_type_error :
    run_backtest {} zero_clock "USDT" c3_strategy "strategy" "BTCUSDT" 10000
      c3_candles = none := by
  simp [run_backtest, run_backtest_state, run_loop, step_candle,
    step_candle_before_strategy, update_positions_and_trades, mark_step,
    process_orders, process_orders_go, exec_orders, process_order_execution,
    create_position_from_order, place_order, initial_state, now, add_balance,
    find_balance, can_execute, OrderData.order_type, c3_strategy, c3_candles,
    mk_candle, ex_market_buy, ex_market_sell, zero_clock]

/-! ## C8: market orders fill on the candle after placement -/

/-- Folding `place_order` appends the orders to the pending queue. -/
theorem foldl_place_order_pending (os : List OrderData) : ∀ s : EngineState,
    (os.foldl place_order s).pending_orders = s.pending_orders ++ os := by
  induction os with
  | nil => intro s; simp
  | cons o rest ih =>
    intro s
    rw [List.foldl_cons, ih (place_order s o)]
    simp [place_order]

/-- Mark-to-market does not touch the pending queue. -/
theorem update_positions_pending (p : Rat) (s : EngineState) :
    (update_positions_and_trades p s).pending_orders = s.pending_orders := rfl

/-- Every NEW pending order whose trigger holds is in the executed list,
marked FILLED with a clock read as `filled_at`. -/
theorem process_orders_go_executes (ck : Clock) (price : Rat) (o : OrderData)
    (hnew : o.status = .new) (hexec : can_execute o price = true) :
    ∀ (pend : List OrderData) (k : Nat), o ∈ pend →
      ∃ j, { o with status := .filled, filled_at := some (ck j) }
        ∈ (process_orders_go ck price pend k).1 := by
  intro pend
  induction pend with
  | nil => intro k h; cases h
  | cons q rest ih =>
    intro k hmem
    rcases List.mem_cons.mp hmem with rfl | hmem'
    · rw [process_orders_go, if_pos ⟨hnew, hexec⟩]
      exact ⟨k, List.mem_cons_self _ _⟩
    · by_cases hq : q.status = .new ∧ can_execute q price
      · rw [process_orders_go, if_pos hq]
        obtain ⟨j, hj⟩ := ih (k + 1) hmem'
        exact ⟨j, List.mem_cons_of_mem _ hj⟩
      · rw [process_orders_go, if_neg hq]
        exact ih k hmem'

/-- No NEW order whose trigger holds survives in the remaining queue. -/
theorem process_orders_go_removes (ck : Clock) (price : Rat) (o : OrderData)
    (hnew : o.status = .new) (hexec : can_execute o price = true) :
    ∀ (pend : List OrderData) (k : Nat),
      o ∉ (process_orders_go ck price pend k).2.1 := by
  intro pend
  induction pend with
  | nil => intro k h; simp [process_orders_go] at h
  | cons q rest ih =>
    intro k hmem
    by_cases hq : q.status = .new ∧ can_execute q price
    · rw [process_orders_go, if_pos hq] at hmem
      exact ih (k + 1) hmem
    · rw [process_orders_go, if_neg hq] at hmem
      rcases List.mem_cons.mp hmem with rfl | hmem'
      · exact hq ⟨hnew, hexec⟩
      · exact ih k hmem'

/-- C8.  The claim's temporal half is true of the order service: the
market BUY pending after candle `i` is marked FILLED with
`filled_at = datetime.now()` and removed from the queue by the
`process_orders` call of candle `i+1`.  Its conclusion is false of the
engine: `_process_order_execution` raises `TypeError` on the filled order
(`create_position(**kwargs)` against `create_position(self, params)`), so
no position is ever created — there is no resulting position whose entry
price could equal candle `i+1`'s close — and the run aborts there. -/
theorem c8_fill_marks_filled_then_raises :
    (process_orders zero_clock 100 c8_state).1
      = [{ ex_market_buy with status := .filled, filled_at := some 0 }] ∧
    (process_orders zero_clock 100 c8_state).2.pending_orders = [] ∧
    step_candle_before_strategy {} zero_clock "USDT" c8_state (mk_candle 1 100)
      = none := by
  refine ⟨?_, ?_, ?_⟩ <;>
    simp [process_orders, process_orders_go, can_execute, OrderData.order_type,
      step_candle_before_strategy, update_positions_and_trades, mark_step,
      exec_orders, process_order_execution, create_position_from_order,
      c8_state, ex_market_buy, mk_candle, add_balance, zero_clock]

/-! ## Association-list lemmas for the position/trade maps -/

/-- `update_entry` preserves the key list. -/
theorem update_entry_keys {α : Type} (l : List (Nat × α)) (k : Nat) (v : α) :
    (update_entry l k v).map Prod.fst = l.map Prod.fst := by
  induction l with
  | nil => rfl
  | cons e rest ih =>
    by_cases he : e.1 = k
    · rw [update_entry, if_pos he]
      simp [he]
    · rw [update_entry, if_neg he]
      simp [ih]

/-- Members of `update_entry l k v` are the new pair or members of `l`. -/
theorem mem_update_entry {α : Type} {l : List (Nat × α)} {k : Nat} {v : α}
    {e : Nat × α} (h : e ∈ update_entry l k v) : e = (k, v) ∨ e ∈ l := by
  induction l with
  | nil => cases h
  | cons f rest ih =>
    by_cases hf : f.1 = k
    · rw [update_entry, if_pos hf] at h
      rcases List.mem_cons.mp h with rfl | h'
      · exact Or.inl rfl
      · exact Or.inr (List.mem_cons_of_mem f h')
    · rw [update_entry, if_neg hf] at h
      rcases List.mem_cons.mp h with rfl | h'
      · exact Or.inr (List.mem_cons_self _ _)
      · rcases ih h' with h'' | h''
        · exact Or.inl h''
        · exact Or.inr (List.mem_cons_of_mem f h'')

/-- With distinct keys, the only entry of `update_entry l k v` keyed `k`
is the new pair. -/
theorem mem_update_entry_eq_key {α : Type} {l : List (Nat × α)} {k : Nat} {v : α}
    {e : Nat × α} (hnodup : (l.map Prod.fst).Nodup) (h : e ∈ update_entry l k v)
    (hk : e.1 = k) (hmem : k ∈ l.map Prod.fst) : e = (k, v) := by
  induction l with
  | nil => cases h
  | cons f rest ih =>
    rw [List.map_cons, List.nodup_cons] at hnodup
    by_cases hf : f.1 = k
    · rw [update_entry, if_pos hf] at h
      rcases List.mem_cons.mp h with rfl | h'
      · rfl
      · exfalso
        refine hnodup.1 ?_
        rw [hf]
        rw [← hk]
        exact List.mem_map_of_mem Prod.fst h'
    · rw [update_entry, if_neg hf] at h
      rcases List.mem_cons.mp h with rfl | h'
      · exact absurd hk hf
      · refine ih hnodup.2 h' ?_
        rcases List.mem_cons.mp hmem with hcontra | hmem'
        · exact absurd hcontra.symm hf
        · exact hmem'

/-- A key-value pair of a distinct-key map is what lookup finds. -/
theorem lookup_entry_of_mem_nodup {α : Type} {l : List (Nat × α)} {k : Nat} {v : α}
    (hnodup : (l.map Prod.fst).Nodup) (h : (k, v) ∈ l) :
    lookup_entry l k = some v := by
  induction l with
  | nil => cases h
  | cons f rest ih =>
    rw [List.map_cons, List.nodup_cons] at hnodup
    by_cases hf : f.1 = k
    · rw [lookup_entry, if_pos hf]
      rcases List.mem_cons.mp h with rfl | h'
      · rfl
      · exfalso
        refine hnodup.1 ?_
        rw [hf]
        exact List.mem_map_of_mem Prod.fst h'
    · rw [lookup_entry, if_neg hf]
      rcases List.mem_cons.mp h with rfl | h'
      · exact absurd rfl hf
      · exact ih hnodup.2 h'

/-- A successful lookup produces a member of the map. -/
theorem lookup_entry_mem {α : Type} : ∀ {l : List (Nat × α)} {k : Nat} {v : α},
    lookup_entry l k = some v → (k, v) ∈ l := by
  intro l
  induction l with
  | nil => intro k v h; cases h
  | cons f rest ih =>
    intro k v h
    by_cases hf : f.1 = k
    · rw [lookup_entry, if_pos hf] at h
      have hfv : f = (k, v) := by
        cases f
        simp only [Option.some.injEq] at h
        simp only at hf
        rw [hf, h]
      exact hfv ▸ List.mem_cons_self _ _
    · rw [lookup_entry, if_neg hf] at h
      exact List.mem_cons_of_mem f (ih h)

/-! ## C10 part 1: the account's balances are never touched -/

/-- Queueing orders leaves the account untouched. -/
theorem foldl_place_order_account (os : List OrderData) : ∀ s : EngineState,
    (os.foldl place_order s).account = s.account := by
  induction os with
  | nil => intro s; rfl
  | cons o rest ih =>
    intro s
    rw [List.foldl_cons, ih]
    rfl

/-- `_close_position` changes only `total_pnl` on the account. -/
theorem close_position_balances (config : FeeConfig) (ck : Clock) (base : String)
    (price : Rat) (eid : String) (s : EngineState) (pid : Nat) :
    (close_position config ck base price eid s pid).account.balances
      = s.account.balances := by
  cases hl : lookup_entry s.positions pid with
  | none => simp [close_position, hl]
  | some p =>
    by_cases hp : p.status = .opn
    · cases hcf : close_position_full p price with
      | none => simp [close_position, hl, hp, hcf]
      | some pr =>
        cases hct : lookup_entry s.current_trades pid with
        | none => simp [close_position, hl, hp, hcf, hct]
        | some t => simp [close_position, hl, hp, hcf, hct, now]
    · simp [close_position, hl, hp]

/-- The force-close fold leaves the balances untouched. -/
theorem foldl_close_balances (config : FeeConfig) (ck : Clock) (base : String)
    (price : Rat) (eid : String) : ∀ (ks : List Nat) (s : EngineState),
    ((ks.foldl (close_position config ck base price eid) s).account.balances)
      = s.account.balances := by
  intro ks
  induction ks with
  | nil => intro s; rfl
  | cons k rest ih =>
    intro s
    rw [List.foldl_cons, ih, close_position_balances]

/-- The freshly created account holds exactly the initial balance, free,
in the base currency. -/
theorem initial_state_balances (ck : Clock) (base : String) (bal : Rat) :
    (initial_state ck base bal).account.balances = [⟨base, bal, 0⟩] := by
  simp [initial_state, add_balance, find_balance]

/-- The analyzer never reassigns `final_balance`. -/
theorem analyze_backtest_final_balance (rd : BacktestResultData) :
    (analyze_backtest rd).final_balance = rd.metrics.final_balance := by
  simp only [analyze_backtest]
  split_ifs <;> rfl

/-! ## The fill path always raises: consequences for the loop -/

/-- `_process_order_execution` always raises: its first statement calls
`create_position` with expanded keyword arguments, a `TypeError` for
every order. -/
theorem process_order_execution_none (config : FeeConfig) (ck : Clock) (base : String)
    (pr : Rat) (s : EngineState) (o : OrderData) :
    process_order_execution config ck base pr s o = none := rfl

/-- An executed-orders loop that reaches a FILLED order aborts. -/
theorem exec_orders_none_of_head_filled (config : FeeConfig) (ck : Clock) (base : String)
    (pr : Rat) (o : OrderData) (os : List OrderData) (s : EngineState)
    (ho : o.status = .filled) :
    exec_orders config ck base pr (o :: os) s = none := by
  simp [exec_orders, ho, process_order_execution_none]

/-- If the executed-orders loop returns at all, the state is unchanged. -/
theorem exec_orders_some (config : FeeConfig) (ck : Clock) (base : String) (pr : Rat) :
    ∀ (os : List OrderData) (s s1 : EngineState),
    exec_orders config ck base pr os s = some s1 → s1 = s := by
  intro os
  induction os with
  | nil =>
    intro s s1 h
    simp [exec_orders] at h
    exact h.symm
  | cons o rest ih =>
    intro s s1 h
    by_cases ho : o.status = .filled
    · rw [exec_orders_none_of_head_filled config ck base pr o rest s ho] at h
      exact absurd h (by simp)
    · simp only [exec_orders, if_neg ho] at h
      exact ih s s1 h

/-- Queueing a list of orders only appends them to the pending queue. -/
theorem foldl_place_order_state (os : List OrderData) : ∀ s : EngineState,
    os.foldl place_order s = { s with pending_orders := s.pending_orders ++ os } := by
  induction os with
  | nil => intro s; simp
  | cons o rest ih =>
    intro s
    rw [List.foldl_cons, ih]
    simp [place_order]

/-- A completing candle step from a state with no positions and no live
trades: no order can have filled, so only the pending queue (and the
clock index) moved. -/
theorem step_candle_some_spec (config : FeeConfig) (ck : Clock) (base : String)
    (strat : Strategy) (s s1 : EngineState) (c : Candle)
    (h : step_candle config ck base strat s c = some s1)
    (hpos : s.positions = []) (htr : s.current_trades = []) :
    s1.positions = [] ∧ s1.current_trades = [] ∧
    s1.completed_trades = s.completed_trades ∧
    s1.account = s.account := by
  unfold step_candle at h
  cases hb : step_candle_before_strategy config ck base s c with
  | none => rw [hb] at h; exact absurd h (by simp)
  | some s2 =>
    rw [hb] at h
    simp only [Option.map_some', Option.some_inj] at h
    subst h
    unfold step_candle_before_strategy at hb
    have hs2 := exec_orders_some config ck base c.close_price _ _ _ hb
    subst hs2
    rw [foldl_place_order_state]
    refine ⟨?_, ?_, ?_, ?_⟩ <;>
      simp [process_orders, update_positions_and_trades, htr, hpos]

/-- A completing run from a state with no positions and no live trades
keeps the account and the (empty) trade records. -/
theorem run_loop_some_spec (config : FeeConfig) (ck : Clock) (base : String)
    (strat : Strategy) :
    ∀ (cs : List Candle) (s s1 : EngineState),
    run_loop config ck base strat cs s = some s1 →
    s.positions = [] → s.current_trades = [] →
    s1.positions = [] ∧ s1.current_trades = [] ∧
    s1.completed_trades = s.completed_trades ∧ s1.account = s.account := by
  intro cs
  induction cs with
  | nil =>
    intro s s1 h hp ht
    simp [run_loop] at h
    subst h
    exact ⟨hp, ht, rfl, rfl⟩
  | cons c rest ih =>
    intro s s1 h hp ht
    simp only [run_loop] at h
    cases hstep : step_candle config ck base strat s c with
    | none => rw [hstep] at h; simp at h
    | some s2 =>
      rw [hstep] at h
      simp only [Option.some_bind] at h
      obtain ⟨h1, h2, h3, h4⟩ :=
        step_candle_some_spec config ck base strat s s2 c hstep hp ht
      obtain ⟨g1, g2, g3, g4⟩ := ih s2 s1 h h1 h2
      exact ⟨g1, g2, g3.trans h3, g4.trans h4⟩

/-- When the state-level run completes, the force-close loop has nothing
to do: the final state keeps the initial account and has no positions, no
live trades and no completed trades. -/
theorem run_backtest_state_some_spec (config : FeeConfig) (ck : Clock) (base : String)
    (strat : Strategy) (bal : Rat) (candles : List Candle) (s1 : EngineState)
    (h : run_backtest_state config ck base strat bal candles = some s1) :
    s1.positions = [] ∧ s1.current_trades = [] ∧ s1.completed_trades = [] ∧
    s1.account = (initial_state ck base bal).account := by
  cases candles with
  | nil => simp [run_backtest_state] at h
  | cons c0 cs =>
    simp only [run_backtest_state] at h
    cases hrl : run_loop config ck base strat (c0 :: cs)
        (initial_state ck base bal) with
    | none => rw [hrl] at h; simp at h
    | some s_end =>
      rw [hrl] at h
      simp only [Option.map_some', Option.some_inj] at h
      obtain ⟨g1, g2, g3, g4⟩ := run_loop_some_spec config ck base strat (c0 :: cs) _ _
        hrl rfl rfl
      rw [g2] at h
      simp only [List.map_nil, List.foldl_nil] at h
      subst h
      exact ⟨g1, g2, g3.trans rfl, g4⟩

/-! ## C10: a completing backtest always reports the initial balance -/

/-- C10 counterexample.  The claim states `final_balance` always equals
`initial_balance`, for every strategy and candle list.  For any strategy
whose order ever fills there is no final balance at all: `run_backtest`
aborts with the `TypeError` of `_create_position_from_order` — here the
SELL placed on candle 0 fills on candle 1 and the run dies before any
force-close or final-balance computation. -/
theorem c10_fill_aborts_before_final_balance :
    run_backtest {} zero_clock "USDT" c10_strategy "strategy" "BTCUSDT" 10000
      c10_candles = none := by
  simp [run_backtest, run_backtest_state, run_loop, step_candle,
    step_candle_before_strategy, update_positions_and_trades, mark_step,
    process_orders, process_orders_go, exec_orders, process_order_execution,
    create_position_from_order, place_order, initial_state, now, add_balance,
    find_balance, can_execute, OrderData.order_type, c10_strategy, c10_candles,
    mk_candle, ex_market_sell, zero_clock]

/-- C10 (amended).  The loop never credits or debits any `Balance`
(fills abort the run before the fee charge; nothing else touches the
balances), so whenever `run_backtest` completes at all, the reported
`final_balance` — the account's total equity after the (vacuous)
force-close — equals the initial balance. -/
theorem c10_final_balance_equals_initial (config : FeeConfig) (ck : Clock)
    (base : String) (strat : Strategy) (nm sym : String) (bal : Rat)
    (candles : List Candle)
    (h : (run_backtest config ck base strat nm sym bal candles).isSome = true) :
    (run_backtest config ck base strat nm sym bal candles).map
        (fun r => r.metrics.final_balance) = some bal := by
  cases candles with
  | nil => simp [run_backtest, run_backtest_state] at h
  | cons c0 cs =>
    cases hst : run_backtest_state config ck base strat bal (c0 :: cs) with
    | none => simp [run_backtest, hst] at h
    | some s1 =>
      obtain ⟨g1, g2, g3, g4⟩ :=
        run_backtest_state_some_spec config ck base strat bal (c0 :: cs) s1 hst
      simp only [run_backtest, hst, Option.map_some']
      rw [analyze_backtest_final_balance]
      rw [g1, g4]
      simp [get_total_equity, get_total_balance, initial_state, add_balance,
        find_balance, Balance.total]

/-- C10 witness: the amended theorem applied to the never-ordering
strategy on the three-candle list — the run completes and reports final
balance 10000. -/
theorem c10_final_balance_witness :
    (run_backtest {} zero_clock "USDT" null_strategy "strategy" "BTCUSDT" 10000
        c7_candles).isSome = true ∧
    (run_backtest {} zero_clock "USDT" null_strategy "strategy" "BTCUSDT" 10000
        c7_candles).map (fun r => r.metrics.final_balance) = some 10000 := by
  have hs : (run_backtest {} zero_clock "USDT" null_strategy "strategy" "BTCUSDT"
      10000 c7_candles).isSome = true := by
    simp [run_backtest, run_backtest_state, run_loop, step_candle,
      step_candle_before_strategy, update_positions_and_trades, mark_step,
      process_orders, process_orders_go, exec_orders, place_order, initial_state,
      now, add_balance, find_balance, null_strategy, c7_candles, mk_candle,
      zero_clock, List.getLastI]
  exact ⟨hs, c10_final_balance_equals_initial {} zero_clock "USDT" null_strategy
    "strategy" "BTCUSDT" 10000 c7_candles hs⟩

/-! ## C2: determinism and the wall clock -/

end Midas
